import Mathlib

set_option maxHeartbeats 1000000

/-!
Verification of the tool-calling core of the helium file-explorer agent:
the tool-call notation parser (`detectToolCall`, `extractToolCalls`,
`removeToolCallTags`, `formatToolResult`, `hasToolResult`), the MCP tool
executor adapter (`executeTool`), and the orchestration loop
(`runInferenceWithTools`).

The embedding is a direct translation of the TypeScript source.  Runtime
services that the source calls (the JS `JSON.parse` builtin, `Date.now()`,
the inference backend, and the MCP tool backend) are passed as explicit
parameters; machine strings are Lean `String`s and the regex scans of the
source are implemented as explicit character-list scans with the same
match semantics (leftmost match, lazy body, non-overlapping continuation).
-/

/-! ## JSON values

Model of the JS values produced by `JSON.parse`, together with JS
truthiness, used by the parser's field validation (`parsed.name &&
parsed.arguments`) and by the executor's argument records. -/

inductive JsonValue where
  | null
  | bool (b : Bool)
  | num (n : Int)
  | str (s : String)
  | arr (elems : List JsonValue)
  | obj (fields : List (String × JsonValue))

/-- JS truthiness of a JSON value (`null`, `false`, `0`, `""` are falsy). -/
def JsonValue.truthy : JsonValue → Bool
  | .null => false
  | .bool b => b
  | .num n => n != 0
  | .str s => s != ""
  | .arr _ => true
  | .obj _ => true

/-- Property lookup on a parsed JSON value: `v[key]`; `none` models
`undefined` (also for property access on non-objects). -/
def lookupField : List (String × JsonValue) → String → Option JsonValue
  | [], _ => none
  | (k, v) :: rest, key => if k = key then some v else lookupField rest key

def jsGet : JsonValue → String → Option JsonValue
  | .obj fields, key => lookupField fields key
  | _, _ => none

/-- Truthiness of a possibly-absent property. -/
def optTruthy : Option JsonValue → Bool
  | none => false
  | some v => v.truthy

/-! ## Tool-call notation parser (src/lib/ai/tool-calling.ts) -/

def tagOpenChars : List Char := "<tool_call>".data

def tagCloseChars : List Char := "</tool_call>".data

/-- `String.prototype.includes` on character lists. -/
def containsSub (pat : List Char) : List Char → Bool
  | [] => pat.isEmpty
  | c :: rest => pat.isPrefixOf (c :: rest) || containsSub pat rest

/-- `detectToolCall(content)`:
`content.includes('<tool_call>') && content.includes('</tool_call>')`. -/
def detectToolCall (content : String) : Bool :=
  containsSub tagOpenChars content.data && containsSub tagCloseChars content.data

/-- Split at the first occurrence of `</tool_call>`: returns the text
before it and the text after it (the lazy regex body and the scan
continuation point), or `none` when no closing marker occurs. -/
def splitAtClose : List Char → Option (List Char × List Char)
  | [] => none
  | c :: rest =>
    if tagCloseChars.isPrefixOf (c :: rest) then some ([], (c :: rest).drop 12)
    else
      match splitAtClose rest with
      | some (inner, suffix) => some (c :: inner, suffix)
      | none => none

/-- Successive matches of `/<tool_call>([\s\S]*?)<\/tool_call>/g`: inner
texts of the non-overlapping wrapper spans, left to right.  The `fuel`
argument (instantiated with the text length) only makes the recursion
structural; a match consumes at least eleven characters, so the length
always bounds the recursion depth. -/
def toolCallSpansGo : Nat → List Char → List (List Char)
  | 0, _ => []
  | _, [] => []
  | fuel + 1, c :: rest =>
    if tagOpenChars.isPrefixOf (c :: rest) then
      match splitAtClose ((c :: rest).drop 11) with
      | some (inner, suffix) => inner :: toolCallSpansGo fuel suffix
      | none => toolCallSpansGo fuel rest
    else toolCallSpansGo fuel rest

def toolCallSpans (s : List Char) : List (List Char) :=
  toolCallSpansGo s.length s

/-- The result of `String.prototype.replace` with the same regex and an
empty replacement: unmatched characters are kept, matched spans dropped,
scanning resuming after each match (JS does not rescan spliced text). -/
def removeSpansGo : Nat → List Char → List Char
  | 0, s => s
  | _, [] => []
  | fuel + 1, c :: rest =>
    if tagOpenChars.isPrefixOf (c :: rest) then
      match splitAtClose ((c :: rest).drop 11) with
      | some (_, suffix) => removeSpansGo fuel suffix
      | none => c :: removeSpansGo fuel rest
    else c :: removeSpansGo fuel rest

def removeSpans (s : List Char) : List Char :=
  removeSpansGo s.length s

/-- `String.prototype.trim`. -/
def trimChars (s : List Char) : List Char :=
  ((s.dropWhile Char.isWhitespace).reverse.dropWhile Char.isWhitespace).reverse

/-- `removeToolCallTags(content)`:
`content.replace(/<tool_call>[\s\S]*?<\/tool_call>/g, '').trim()`. -/
def removeToolCallTags (content : String) : String :=
  String.mk (trimChars (removeSpans content.data))

/-- A parsed tool call record, fields as in the `ToolCall` interface. -/
structure ToolCall where
  id : String
  name : String
  arguments : JsonValue

/-- The synthesized id `` `call_${Date.now()}_${toolCalls.length}` ``. -/
def synthId (now idx : Nat) : String :=
  "call_" ++ toString now ++ "_" ++ toString idx

/-- One candidate span of `extractToolCalls`: trim the inner text, run
`JSON.parse` (a parse failure is caught and the candidate dropped), and
accept only candidates whose `name` and `arguments` properties are truthy
(fields typed as in the declared `ToolCall` interface); a falsy or absent
`id` is replaced by a synthesized one. -/
def parseSpan (parse : String → Option JsonValue) (now idx : Nat)
    (inner : List Char) : Option ToolCall :=
  match parse (String.mk (trimChars inner)) with
  | none => none
  | some parsed =>
    match jsGet parsed "name", jsGet parsed "arguments" with
    | some (JsonValue.str nm), some args =>
      if nm ≠ "" && args.truthy then
        some { id := (match jsGet parsed "id" with
                      | some (JsonValue.str i) => if i ≠ "" then i else synthId now idx
                      | _ => synthId now idx),
               name := nm, arguments := args }
      else none
    | _, _ => none

/-- The accumulation loop of `extractToolCalls`: malformed candidates are
silently dropped, accepted ones pushed in span order, the synthesized-id
counter being the number already accepted. -/
def extractGo (parse : String → Option JsonValue) (now : Nat) :
    List (List Char) → List ToolCall → List ToolCall
  | [], acc => acc
  | inner :: rest, acc =>
    match parseSpan parse now acc.length inner with
    | some tc => extractGo parse now rest (acc ++ [tc])
    | none => extractGo parse now rest acc

/-- `extractToolCalls(content)`.  `parse` models the `JSON.parse` builtin
and `now` the ambient `Date.now()` clock used for synthesized ids. -/
def extractToolCalls (parse : String → Option JsonValue) (now : Nat)
    (content : String) : List ToolCall :=
  extractGo parse now (toolCallSpans content.data) []

/-- `formatToolResult(toolName, result, isError)`. -/
def formatToolResult (toolName : String) (result : String) (isError : Bool) : String :=
  if isError then
    "<tool_result name=\"" ++ toolName ++ "\" error=\"true\">\n" ++ result ++ "\n</tool_result>"
  else
    "<tool_result name=\"" ++ toolName ++ "\">\n" ++ result ++ "\n</tool_result>"

/-- `hasToolResult(content)`:
`content.includes('<tool_result') && content.includes('</tool_result>')`. -/
def hasToolResult (content : String) : Bool :=
  containsSub "<tool_result".data content.data &&
  containsSub "</tool_result>".data content.data

/-! ## Tool executor adapter (src/lib/ai/mcp-service.ts, `MCPService.executeTool`) -/

inductive ContentType where
  | text
  | resource

/-- One entry of `ExecuteToolResponse.content`. -/
structure ContentPart where
  type : ContentType
  text : Option String := none
  uri : Option String := none

/-- The `execute_mcp_tool` backend response. -/
structure ExecuteToolResponse where
  success : Bool
  content : List ContentPart
  is_error : Bool
  execution_time_ms : Option Nat := none
  error : Option String := none

/-- The normalized `ToolResult` returned by the adapter. -/
structure ToolResult where
  tool_call_id : String
  content : String
  isError : Bool
  executionTimeMs : Option Nat := none

/-- The per-part text of the content mapping in `executeTool` (a part
whose `text`/`uri` is absent or falsy contributes the empty string). -/
def contentPartText (c : ContentPart) : String :=
  match c.type, c.text, c.uri with
  | ContentType.text, some t, _ =>
    if t ≠ "" then t else ""
  | ContentType.resource, t, some u =>
    if u ≠ "" then
      "Resource: " ++ u ++ (match t with
                            | some s => if s ≠ "" then "\n" ++ s else ""
                            | none => "")
    else ""
  | _, _, _ => ""

def joinParts (parts : List ContentPart) : String :=
  String.intercalate "\n" (parts.map contentPartText)

/-- JS `a || b` on the optional reported duration (`0` is falsy). -/
def jsOrNat (o : Option Nat) (b : Nat) : Nat :=
  match o with
  | some v => if v ≠ 0 then v else b
  | none => b

/-- `MCPService.executeTool(toolCall)`.  `invokeResult` is the outcome of
the awaited `invoke('execute_mcp_tool', …)` call (`Except.error` models a
thrown exception) and `invokeTime` the measured `Date.now() - startTime`
around it.  The `try`/`catch` of the source is the `match`: a throw is
converted into an error result whose `executionTimeMs` field is left
unset. -/
def executeTool (toolCall : ToolCall)
    (invokeResult : Except String ExecuteToolResponse) (invokeTime : Nat) : ToolResult :=
  match invokeResult with
  | Except.ok response =>
    { tool_call_id := toolCall.id,
      content := joinParts response.content,
      isError := response.is_error,
      executionTimeMs := some (jsOrNat response.execution_time_ms invokeTime) }
  | Except.error e =>
    { tool_call_id := toolCall.id,
      content := "Error: " ++ e,
      isError := true,
      executionTimeMs := none }

/-! ## Orchestration loop (src/lib/ai/mcp-manager.ts, `runInferenceWithTools`) -/

inductive MessageRole where
  | system
  | user
  | assistant

inductive ExecutionStatus where
  | executing
  | success
  | error

/-- A `ToolExecutionData` record of the loop accumulator. -/
structure ToolExecutionData where
  toolName : String
  arguments : JsonValue
  status : ExecutionStatus
  result : Option String := none
  error : Option String := none
  executionTimeMs : Option Nat := none

/-- A native (OpenAI-shaped) tool-call entry on a response message:
`{id, function: {name, arguments: <JSON-encoded string>}}`. -/
structure NativeFunction where
  name : String
  arguments : String

structure NativeToolCall where
  id : String
  function : NativeFunction

structure ChatMessage where
  id : String
  role : MessageRole
  content : String
  timestamp : Nat
  toolCalls : Option (List NativeToolCall) := none
  toolExecutions : Option (List ToolExecutionData) := none

structure InferenceRequest where
  messages : List ChatMessage

structure InferenceResponse where
  message : ChatMessage

/-- What the runtime produces for one awaited tool execution: the result
of `mcpService.executeTool` (`Except.error` models a throw caught by the
loop's `catch`), the measured `Date.now() - startTime` duration, and the
`Date.now()` value used for the synthesized result-message id and
timestamp. -/
structure ExecBehavior where
  outcome : Except String ToolResult
  elapsedMs : Nat
  now : Nat

/-- The injected collaborators of one loop invocation: the inference
backend (`runInference`), the tool executor, the `JSON.parse` builtin and
the ambient clock.  The streaming and progress callbacks of the source
are observational only and are not modelled. -/
structure LoopEnv where
  backend : InferenceRequest → InferenceResponse
  exec : ToolCall → ExecBehavior
  parse : String → Option JsonValue
  now : Nat

def MAX_TOOL_ITERATIONS : Nat := 5

/-- The native-call mapping
`response.message.toolCalls.map(tc => ({id, name, arguments: JSON.parse(...)}))`;
a `JSON.parse` failure is an uncaught throw that aborts the invocation. -/
def mapNative (parse : String → Option JsonValue) :
    List NativeToolCall → Except String (List ToolCall)
  | [] => Except.ok []
  | tc :: rest =>
    match parse tc.function.arguments with
    | none => Except.error "SyntaxError: JSON.parse failed on native tool call arguments"
    | some args =>
      (mapNative parse rest).map
        (fun l => { id := tc.id, name := tc.function.name, arguments := args } :: l)

/-- The *Inspecting* step of one iteration: prefer a non-empty native
tool-call list; otherwise run `detectToolCall`/`extractToolCalls` on the
text content; an empty result list means the response is final (the two
`break` sites of the source both set `finalResponse = response`). -/
def chooseToolCalls (parse : String → Option JsonValue) (now : Nat)
    (response : InferenceResponse) : Except String (List ToolCall) :=
  match response.message.toolCalls with
  | some (tc :: tcs) => mapNative parse (tc :: tcs)
  | _ =>
    if detectToolCall response.message.content then
      Except.ok (extractToolCalls parse now response.message.content)
    else Except.ok []

/-- One tool call's execution in the loop body: the `try` branch turns the
returned `ToolResult` into a terminal-status record and a tool-result
message; the `catch` branch records the thrown message and synthesizes an
error-flagged tool-result message.  Both produce a `role = user` message
whose content is `formatToolResult`. -/
def execOneCall (env : LoopEnv) (tc : ToolCall) : ToolExecutionData × ChatMessage :=
  match (env.exec tc).outcome with
  | Except.ok result =>
    ({ toolName := tc.name, arguments := tc.arguments,
       status := if result.isError then ExecutionStatus.error else ExecutionStatus.success,
       result := some result.content,
       error := if result.isError then some result.content else none,
       executionTimeMs := some (env.exec tc).elapsedMs },
     { id := "tool-result-" ++ toString (env.exec tc).now ++ "-" ++ tc.id,
       role := MessageRole.user,
       content := formatToolResult tc.name result.content result.isError,
       timestamp := (env.exec tc).now })
  | Except.error e =>
    ({ toolName := tc.name, arguments := tc.arguments,
       status := ExecutionStatus.error,
       error := some e },
     { id := "tool-error-" ++ toString (env.exec tc).now ++ "-" ++ tc.id,
       role := MessageRole.user,
       content := formatToolResult tc.name ("Error: " ++ e) true,
       timestamp := (env.exec tc).now })

/-- The sequential `for (const toolCall of toolCalls)` loop: execution
records and tool-result messages, in extraction order. -/
def executeCalls (env : LoopEnv) : List ToolCall → List ToolExecutionData × List ChatMessage
  | [] => ([], [])
  | c :: cs =>
    ((execOneCall env c).1 :: (executeCalls env cs).1,
     (execOneCall env c).2 :: (executeCalls env cs).2)

/-- The tool calls one iteration works on, as a function of the current
request. -/
def callsOf (env : LoopEnv) (req : InferenceRequest) : Except String (List ToolCall) :=
  chooseToolCalls env.parse env.now (env.backend req)

/-- The assistant message appended to the history:
`{...response.message, content: removeToolCallTags(content) || '(Using tools...)'}`. -/
def assistantMessageOf (env : LoopEnv) (req : InferenceRequest) : ChatMessage :=
  { (env.backend req).message with
    content :=
      if removeToolCallTags (env.backend req).message.content = "" then "(Using tools...)"
      else removeToolCallTags (env.backend req).message.content }

/-- The next iteration's request:
`{...currentRequest, messages: [...messages, assistantMessage, ...toolResults]}`. -/
def stepRequest (env : LoopEnv) (req : InferenceRequest) : InferenceRequest :=
  { req with
    messages := req.messages ++ assistantMessageOf env req ::
      (executeCalls env ((callsOf env req).toOption.getD [])).2 }

/-- The `while (iterations < MAX_TOOL_ITERATIONS)` loop.  The fuel is the
number of remaining iterations; `Except.ok (none, acc)` is the state
`finalResponse === null` with accumulator `acc` when the budget runs out,
`Except.ok (some r, acc)` the state after a `break`, and `Except.error`
an uncaught throw from the native-arguments `JSON.parse`. -/
def toolLoop (env : LoopEnv) :
    Nat → InferenceRequest → List ToolExecutionData →
    Except String (Option InferenceResponse × List ToolExecutionData)
  | 0, _, acc => Except.ok (none, acc)
  | fuel + 1, req, acc =>
    match callsOf env req with
    | Except.error e => Except.error e
    | Except.ok [] => Except.ok (some (env.backend req), acc)
    | Except.ok (c :: cs) =>
      toolLoop env fuel (stepRequest env req) (acc ++ (executeCalls env (c :: cs)).1)

/-- `runInferenceWithTools(request)`: run the loop; a null `finalResponse`
raises the budget-exceeded error; otherwise the accumulator is attached to
the final message's `toolExecutions` field only when non-empty. -/
def runInferenceWithTools (env : LoopEnv) (request : InferenceRequest) :
    Except String InferenceResponse :=
  match toolLoop env MAX_TOOL_ITERATIONS request [] with
  | Except.error e => Except.error e
  | Except.ok (none, _) => Except.error "Maximum tool calling iterations reached"
  | Except.ok (some resp, acc) =>
    Except.ok (if acc.length > 0 then
                 { resp with message := { resp.message with toolExecutions := some acc } }
               else resp)

/-! ## Specification helpers -/

/-- Whether the scan of `removeToolCallTags` finds at least one
wrapper-delimited span in `s` (an opening marker with a closing marker
somewhere after it). -/
def hasSpanChars : List Char → Bool
  | [] => false
  | c :: rest =>
    (tagOpenChars.isPrefixOf (c :: rest) && (splitAtClose ((c :: rest).drop 11)).isSome)
    || hasSpanChars rest

def hasWrappedSpan (s : String) : Bool := hasSpanChars s.data

/-- The right-trim half of `trimChars` (proof helper). -/
def trimRightWS (s : List Char) : List Char :=
  (s.reverse.dropWhile Char.isWhitespace).reverse

/-- The execution records produced by the iteration working on request
`req` (empty when the response carries no tool calls). -/
def recsOf (env : LoopEnv) (req : InferenceRequest) : List ToolExecutionData :=
  (executeCalls env ((callsOf env req).toOption.getD [])).1

/-- The concatenated execution records of `n` consecutive iterations
starting from `req`, in request order. -/
def flatRecs (env : LoopEnv) : Nat → InferenceRequest → List ToolExecutionData
  | 0, _ => []
  | n + 1, req => recsOf env req ++ flatRecs env n (stepRequest env req)

/-! ## Concrete sample inputs (used by the witnesses and counterexamples) -/

/-- The raw-object fallback scenario text of the specification: a tool
call emitted as bare JSON, with zero wrapper markers. -/
def rawFallbackText : String :=
  "Sure, \x7b\"id\":\"call_2\",\"name\":\"read_file\",\"arguments\":\x7b\"path\":\"/tmp/a.txt\"\x7d\x7d here you go"

def rawObjectText : String :=
  "\x7b\"id\":\"call_2\",\"name\":\"read_file\",\"arguments\":\x7b\"path\":\"/tmp/a.txt\"\x7d\x7d"

/-- A `JSON.parse` model that successfully parses the raw fallback object
(so that the absence of recovered records is due to the extractor, not to
the parser). -/
def rawParse : String → Option JsonValue := fun s =>
  if s = rawObjectText then
    some (JsonValue.obj
      [("id", JsonValue.str "call_2"), ("name", JsonValue.str "read_file"),
       ("arguments", JsonValue.obj [("path", JsonValue.str "/tmp/a.txt")])])
  else none

/-- A text on which one strip splices the remaining fragments into a new
wrapper-delimited span. -/
def spliceText : String := "<tool_call<tool_call>a</tool_call>>b</tool_call>"

def sampleCall : ToolCall :=
  { id := "call_1", name := "unknown_tool", arguments := JsonValue.obj [] }

def nativeCallC1 : NativeToolCall :=
  { id := "c1", function := { name := "list_directory", arguments := "\x7b\x7d" } }

def msgNative : ChatMessage :=
  { id := "m1", role := MessageRole.assistant, content := "", timestamp := 0,
    toolCalls := some [nativeCallC1] }

def okResultC1 : ToolResult :=
  { tool_call_id := "c1", content := "ok", isError := false, executionTimeMs := some 1 }

def parseEmptyObj : String → Option JsonValue := fun s =>
  if s = "\x7b\x7d" then some (JsonValue.obj []) else none

/-- An environment whose backend always answers with one native tool call;
the arguments string is `"{}"`. -/
def env5 : LoopEnv :=
  { backend := fun _ => { message := msgNative },
    exec := fun _ => { outcome := Except.ok okResultC1, elapsedMs := 1, now := 0 },
    parse := parseEmptyObj,
    now := 0 }

def toolCallC1 : ToolCall :=
  { id := "c1", name := "list_directory", arguments := JsonValue.obj [] }

def innerJson : String :=
  "\x7b\"name\":\"delete_file\",\"arguments\":\x7b\"path\":\"/tmp/x\"\x7d\x7d"

def msgDel : ChatMessage :=
  { id := "m2", role := MessageRole.assistant,
    content := "<tool_call>" ++ innerJson ++ "</tool_call>", timestamp := 0 }

def errResultDel : ToolResult :=
  { tool_call_id := "call_0_0", content := "Error: permission denied", isError := true,
    executionTimeMs := some 3 }

def parseDel : String → Option JsonValue := fun s =>
  if s = innerJson then
    some (JsonValue.obj [("name", JsonValue.str "delete_file"),
      ("arguments", JsonValue.obj [("path", JsonValue.str "/tmp/x")])])
  else none

/-- An environment whose backend answers with one text-notation tool call
and whose executor reports `isError = true`. -/
def envErr : LoopEnv :=
  { backend := fun _ => { message := msgDel },
    exec := fun _ => { outcome := Except.ok errResultDel, elapsedMs := 3, now := 7 },
    parse := parseDel,
    now := 0 }

def toolCallDel : ToolCall :=
  { id := "call_0_0", name := "delete_file",
    arguments := JsonValue.obj [("path", JsonValue.str "/tmp/x")] }

def msgFP : ChatMessage :=
  { id := "m3", role := MessageRole.assistant,
    content := "<tool_call>oops, not json</tool_call>", timestamp := 0 }

def noResult : ToolResult :=
  { tool_call_id := "x", content := "", isError := false }

/-- An environment whose backend answers with wrapper markers around text
that fails to parse as JSON (a detection false positive). -/
def envFP : LoopEnv :=
  { backend := fun _ => { message := msgFP },
    exec := fun _ => { outcome := Except.ok noResult, elapsedMs := 0, now := 0 },
    parse := fun _ => none,
    now := 0 }

def msgPlain : ChatMessage :=
  { id := "m4", role := MessageRole.assistant, content := "The directory is empty.",
    timestamp := 0 }

/-- An environment whose backend answers with plain prose and no native
tool calls. -/
def envPlain : LoopEnv :=
  { backend := fun _ => { message := msgPlain },
    exec := fun _ => { outcome := Except.ok noResult, elapsedMs := 0, now := 0 },
    parse := fun _ => none,
    now := 0 }

def nativeCallN1 : NativeToolCall :=
  { id := "n1", function := { name := "read_file", arguments := "\x7b\x7d" } }

def msgBoth : ChatMessage :=
  { id := "m5", role := MessageRole.assistant,
    content := "<tool_call>\x7b\"name\":\"other\",\"arguments\":\x7b\x7d\x7d</tool_call>",
    timestamp := 0,
    toolCalls := some [nativeCallN1] }

/-- A response that carries both a native tool-call list and wrapper
markers in its text content. -/
def respN : InferenceResponse := { message := msgBoth }

def reqEmpty : InferenceRequest := { messages := [] }

/-! ## Helper lemmas -/

theorem isPrefixOf_append_self : ∀ (p t : List Char), p.isPrefixOf (p ++ t) = true
  | [], t => by cases t <;> rfl
  | a :: p', t => by
    simp [List.isPrefixOf, isPrefixOf_append_self p' t]

theorem containsSub_of_here (pat s : List Char) (h : pat.isPrefixOf s = true) :
    containsSub pat s = true := by
  cases s with
  | nil =>
    cases pat with
    | nil => rfl
    | cons a t => simp [List.isPrefixOf] at h
  | cons c rest => simp [containsSub, h]

theorem containsSub_append_right (pat y : List Char) (h : containsSub pat y = true) :
    ∀ x : List Char, containsSub pat (x ++ y) = true
  | [] => h
  | a :: x' => by
    simp [containsSub, containsSub_append_right pat y h x']

theorem dropWhile_dropWhile (p : Char → Bool) :
    ∀ l : List Char, (l.dropWhile p).dropWhile p = l.dropWhile p
  | [] => rfl
  | a :: l => by
    cases h : p a with
    | true => simp [List.dropWhile, h, dropWhile_dropWhile p l]
    | false => simp [List.dropWhile, h]

theorem dropWhile_length_le (p : Char → Bool) :
    ∀ l : List Char, (l.dropWhile p).length ≤ l.length
  | [] => Nat.le_refl 0
  | a :: l => by
    cases h : p a with
    | true =>
      simp only [List.dropWhile, h]
      exact Nat.le_succ_of_le (dropWhile_length_le p l)
    | false => simp [List.dropWhile, h]

theorem dropWhile_append_singleton (p : Char → Bool) (a : Char) :
    ∀ xs : List Char, (xs ++ [a]).dropWhile p =
      if (xs.dropWhile p).isEmpty then [a].dropWhile p else xs.dropWhile p ++ [a]
  | [] => by simp
  | x :: xs => by
    cases h : p x with
    | true => simp [List.dropWhile, h, dropWhile_append_singleton p a xs]
    | false => simp [List.dropWhile, h]

theorem head_false_of_dropWhile_fix (p : Char → Bool) (a : Char) (t : List Char)
    (h : (a :: t).dropWhile p = a :: t) : p a = false := by
  cases hp : p a with
  | false => rfl
  | true =>
    exfalso
    simp only [List.dropWhile, hp] at h
    have hle := dropWhile_length_le p t
    rw [h] at hle
    simp only [List.length_cons] at hle
    omega

theorem trimRightWS_idem (s : List Char) : trimRightWS (trimRightWS s) = trimRightWS s := by
  simp [trimRightWS, List.reverse_reverse, dropWhile_dropWhile]

theorem dropWhile_trimRightWS (s : List Char) (h : s.dropWhile Char.isWhitespace = s) :
    (trimRightWS s).dropWhile Char.isWhitespace = trimRightWS s := by
  cases s with
  | nil => simp [trimRightWS]
  | cons a t =>
    have hpa : Char.isWhitespace a = false := head_false_of_dropWhile_fix _ a t h
    rw [trimRightWS, List.reverse_cons, dropWhile_append_singleton]
    cases hni : (t.reverse.dropWhile Char.isWhitespace).isEmpty with
    | true => simp [hni, List.dropWhile, hpa]
    | false => simp [hni, List.reverse_append, List.dropWhile, hpa]

theorem trimChars_idem (s : List Char) : trimChars (trimChars s) = trimChars s := by
  have h1 : (s.dropWhile Char.isWhitespace).dropWhile Char.isWhitespace =
      s.dropWhile Char.isWhitespace := dropWhile_dropWhile _ s
  have h2 : (trimRightWS (s.dropWhile Char.isWhitespace)).dropWhile Char.isWhitespace =
      trimRightWS (s.dropWhile Char.isWhitespace) := dropWhile_trimRightWS _ h1
  show trimRightWS ((trimRightWS (s.dropWhile Char.isWhitespace)).dropWhile Char.isWhitespace) =
      trimRightWS (s.dropWhile Char.isWhitespace)
  rw [h2, trimRightWS_idem]

theorem removeSpansGo_of_no_span :
    ∀ (fuel : Nat) (s : List Char), hasSpanChars s = false → removeSpansGo fuel s = s
  | 0, s, _ => by cases s <;> rfl
  | _ + 1, [], _ => rfl
  | fuel + 1, c :: rest, h => by
    simp only [hasSpanChars, Bool.or_eq_false_iff] at h
    obtain ⟨h1, h2⟩ := h
    cases hpre : tagOpenChars.isPrefixOf (c :: rest) with
    | false => simp [removeSpansGo, hpre, removeSpansGo_of_no_span fuel rest h2]
    | true =>
      cases hsp : splitAtClose ((c :: rest).drop 11) with
      | some pr => rw [hpre, hsp] at h1; simp at h1
      | none =>
        have hsp' : splitAtClose (List.drop 10 rest) = none := by simpa using hsp
        simp [removeSpansGo, hpre, hsp', removeSpansGo_of_no_span fuel rest h2]

theorem removeSpans_of_no_span (s : List Char) (h : hasSpanChars s = false) :
    removeSpans s = s :=
  removeSpansGo_of_no_span s.length s h

theorem toolCallSpansGo_of_no_open :
    ∀ (fuel : Nat) (s : List Char), containsSub tagOpenChars s = false →
      toolCallSpansGo fuel s = []
  | 0, s, _ => by cases s <;> rfl
  | _ + 1, [], _ => rfl
  | fuel + 1, c :: rest, h => by
    simp only [containsSub, Bool.or_eq_false_iff] at h
    obtain ⟨h1, h2⟩ := h
    simp [toolCallSpansGo, h1, toolCallSpansGo_of_no_open fuel rest h2]

/-! ## Claim C1 -/

/-- C1 counterexample: the specification's raw-object fallback scenario
text (a bare JSON tool call with zero wrapper markers) is not detected —
`detectToolCall` demands both wrapper markers — and extraction recovers no
record from it even under a JSON parser that parses the embedded object,
refuting the claimed fallback pattern and Phase B whole-text scan. -/
theorem raw_json_without_markers_not_recovered :
    detectToolCall rawFallbackText = false ∧
    extractToolCalls rawParse 0 rawFallbackText = [] :=
  ⟨by decide, rfl⟩

/-- C1 (amended): `detectToolCall` has no raw-object fallback pattern and
`extractToolCalls` has no whole-text fallback phase: on any text containing
no `<tool_call>` marker, detection returns false and extraction returns the
empty sequence for every JSON parser, so raw-JSON tool calls that omit the
wrapper notation are never recovered. -/
theorem no_raw_fallback_recovery (parse : String → Option JsonValue) (now : Nat)
    (content : String) (h : containsSub tagOpenChars content.data = false) :
    detectToolCall content = false ∧ extractToolCalls parse now content = [] := by
  constructor
  · simp [detectToolCall, h]
  · show extractGo parse now (toolCallSpansGo content.data.length content.data) [] = []
    rw [toolCallSpansGo_of_no_open _ _ h]
    rfl

/-- C1 amended-claim witness at the fallback scenario text. -/
theorem no_raw_fallback_recovery_witness :
    containsSub tagOpenChars rawFallbackText.data = false ∧
    (detectToolCall rawFallbackText = false ∧
     extractToolCalls rawParse 0 rawFallbackText = []) :=
  ⟨by decide, no_raw_fallback_recovery rawParse 0 rawFallbackText (by decide)⟩

/-! ## Claim C3 -/

/-- C3 counterexample: strip is not idempotent on arbitrary input —
removing the inner wrapper span of `spliceText` splices the remaining
fragments into a new wrapper-delimited span, which only a second strip
removes. -/
theorem strip_not_idempotent :
    removeToolCallTags (removeToolCallTags spliceText) ≠ removeToolCallTags spliceText := by
  decide

/-- C3 (amended): strip is idempotent on every text whose stripped result
contains no wrapper-delimited span; stripping input where span removal
splices the remaining fragments into a new wrapper-delimited span falls
outside this guard (and a second strip then removes more). -/
theorem strip_idempotent_unless_new_span (x : String)
    (h : hasWrappedSpan (removeToolCallTags x) = false) :
    removeToolCallTags (removeToolCallTags x) = removeToolCallTags x := by
  have h' : hasSpanChars (trimChars (removeSpans x.data)) = false := h
  show String.mk (trimChars (removeSpans (trimChars (removeSpans x.data)))) =
      String.mk (trimChars (removeSpans x.data))
  rw [removeSpans_of_no_span _ h', trimChars_idem]

/-- C3 amended-claim witness. -/
theorem strip_idempotent_unless_new_span_witness :
    hasWrappedSpan (removeToolCallTags "a <tool_call>z</tool_call> b") = false ∧
    removeToolCallTags (removeToolCallTags "a <tool_call>z</tool_call> b") =
      removeToolCallTags "a <tool_call>z</tool_call> b" :=
  ⟨by decide, strip_idempotent_unless_new_span _ (by decide)⟩

/-! ## Claim C4 -/

/-- C4 counterexample: when the underlying capability call throws, the
adapter converts the failure to `isError = true` with failure text, but the
outcome omits `executionTimeMs` even though the measured wall-clock
duration of the attempt was 42ms. -/
theorem executeTool_throw_omits_duration :
    (executeTool sampleCall (Except.error "backend unreachable") 42).isError = true ∧
    (executeTool sampleCall (Except.error "backend unreachable") 42).content =
      "Error: backend unreachable" ∧
    (executeTool sampleCall (Except.error "backend unreachable") 42).executionTimeMs = none ∧
    (executeTool sampleCall (Except.error "backend unreachable") 42).executionTimeMs ≠ some 42 :=
  ⟨rfl, rfl, rfl, by decide⟩

/-- C4 (amended): `executeTool` never raises past its boundary — a thrown
failure in the underlying capability call yields `isError = true` with
content describing the failure but with `executionTimeMs` absent, while a
returned backend response (even one flagged `is_error`) yields an outcome
whose `executionTimeMs` is the backend-reported duration when nonzero and
otherwise the measured invoke duration. -/
theorem executeTool_never_raises (tc : ToolCall)
    (invokeResult : Except String ExecuteToolResponse) (invokeTime : Nat) :
    (∀ e, invokeResult = Except.error e →
      executeTool tc invokeResult invokeTime =
        { tool_call_id := tc.id, content := "Error: " ++ e, isError := true,
          executionTimeMs := none }) ∧
    (∀ r, invokeResult = Except.ok r →
      (executeTool tc invokeResult invokeTime).isError = r.is_error ∧
      (executeTool tc invokeResult invokeTime).content = joinParts r.content ∧
      (executeTool tc invokeResult invokeTime).executionTimeMs =
        some (jsOrNat r.execution_time_ms invokeTime)) := by
  constructor
  · rintro e rfl; rfl
  · rintro r rfl; exact ⟨rfl, rfl, rfl⟩

/-- C4 amended-claim witness on a thrown failure. -/
theorem executeTool_never_raises_witness :
    executeTool sampleCall (Except.error "io failure") 9 =
      { tool_call_id := "call_1", content := "Error: io failure", isError := true,
        executionTimeMs := none } :=
  (executeTool_never_raises sampleCall (Except.error "io failure") 9).1 "io failure" rfl

/-! ## Claim C8 -/

/-- C8: `formatToolResult` is a deterministic envelope that carries the
result text verbatim as a substring (no lossy escaping), and the
tool-result detector `hasToolResult` recognizes every rendered output. -/
theorem render_verbatim_and_detected (toolName result : String) (isError : Bool) :
    (∃ p q : List Char,
      (formatToolResult toolName result isError).data = p ++ result.data ++ q) ∧
    hasToolResult (formatToolResult toolName result isError) = true := by
  have hsplit : "<tool_result name=\"".data = "<tool_result".data ++ " name=\"".data := by
    decide
  cases isError with
  | true =>
    refine ⟨⟨("<tool_result name=\"" ++ toolName ++ "\" error=\"true\">\n").data,
      "\n</tool_result>".data, ?_⟩, ?_⟩
    · simp [formatToolResult, String.data_append]
    · show (containsSub "<tool_result".data (formatToolResult toolName result true).data &&
          containsSub "</tool_result>".data (formatToolResult toolName result true).data) = true
      rw [Bool.and_eq_true]
      constructor
      · have hd : (formatToolResult toolName result true).data =
            "<tool_result".data ++ (" name=\"".data ++ (toolName.data ++
              ("\" error=\"true\">\n".data ++ (result.data ++ "\n</tool_result>".data)))) := by
          simp [formatToolResult, String.data_append, hsplit]
        rw [hd]
        exact containsSub_of_here _ _ (isPrefixOf_append_self _ _)
      · have hd : (formatToolResult toolName result true).data =
            ("<tool_result name=\"".data ++ toolName.data ++ "\" error=\"true\">\n".data ++
              result.data) ++ "\n</tool_result>".data := by
          simp [formatToolResult, String.data_append]
        rw [hd]
        exact containsSub_append_right _ _ (by decide) _
  | false =>
    refine ⟨⟨("<tool_result name=\"" ++ toolName ++ "\">\n").data,
      "\n</tool_result>".data, ?_⟩, ?_⟩
    · simp [formatToolResult, String.data_append]
    · show (containsSub "<tool_result".data (formatToolResult toolName result false).data &&
          containsSub "</tool_result>".data (formatToolResult toolName result false).data) = true
      rw [Bool.and_eq_true]
      constructor
      · have hd : (formatToolResult toolName result false).data =
            "<tool_result".data ++ (" name=\"".data ++ (toolName.data ++
              ("\">\n".data ++ (result.data ++ "\n</tool_result>".data)))) := by
          simp [formatToolResult, String.data_append, hsplit]
        rw [hd]
        exact containsSub_of_here _ _ (isPrefixOf_append_self _ _)
      · have hd : (formatToolResult toolName result false).data =
            ("<tool_result name=\"".data ++ toolName.data ++ "\">\n".data ++
              result.data) ++ "\n</tool_result>".data := by
          simp [formatToolResult, String.data_append]
        rw [hd]
        exact containsSub_append_right _ _ (by decide) _

/-! ## Loop lemmas -/

theorem executeCalls_fst_length (env : LoopEnv) :
    ∀ l : List ToolCall, (executeCalls env l).1.length = l.length
  | [] => rfl
  | c :: cs => by simp [executeCalls, executeCalls_fst_length env cs]

theorem executeCalls_snd_length (env : LoopEnv) :
    ∀ l : List ToolCall, (executeCalls env l).2.length = l.length
  | [] => rfl
  | c :: cs => by simp [executeCalls, executeCalls_snd_length env cs]

theorem executeCalls_messages (env : LoopEnv) :
    ∀ l : List ToolCall,
      List.Forall₂ (fun tc (m : ChatMessage) =>
        m.role = MessageRole.user ∧
        m.content = (match (env.exec tc).outcome with
          | Except.ok r => formatToolResult tc.name r.content r.isError
          | Except.error e => formatToolResult tc.name ("Error: " ++ e) true))
        l (executeCalls env l).2
  | [] => List.Forall₂.nil
  | c :: cs => by
    have hcons : (executeCalls env (c :: cs)).2 =
        (execOneCall env c).2 :: (executeCalls env cs).2 := rfl
    rw [hcons]
    refine List.Forall₂.cons ⟨?_, ?_⟩ (executeCalls_messages env cs)
    · cases hout : (env.exec c).outcome <;> simp [execOneCall, hout]
    · cases hout : (env.exec c).outcome <;> simp [execOneCall, hout]

theorem executeCalls_roles (env : LoopEnv) :
    ∀ l : List ToolCall, ∀ m ∈ (executeCalls env l).2, m.role = MessageRole.user
  | [], m, hm => by simp [executeCalls] at hm
  | c :: cs, m, hm => by
    have hcons : (executeCalls env (c :: cs)).2 =
        (execOneCall env c).2 :: (executeCalls env cs).2 := rfl
    rw [hcons] at hm
    rcases List.mem_cons.mp hm with h1 | h2
    · subst h1
      cases hout : (env.exec c).outcome <;> simp [execOneCall, hout]
    · exact executeCalls_roles env cs m h2

theorem mapNative_spec (parse : String → Option JsonValue) :
    ∀ (l : List NativeToolCall) (records : List ToolCall),
      mapNative parse l = Except.ok records →
      List.Forall₂ (fun (ntc : NativeToolCall) (r : ToolCall) =>
        r.id = ntc.id ∧ r.name = ntc.function.name ∧
        parse ntc.function.arguments = some r.arguments) l records
  | [], records, h => by
    simp only [mapNative] at h
    injection h with h
    subst h
    exact List.Forall₂.nil
  | tc :: rest, records, h => by
    simp only [mapNative] at h
    cases hp : parse tc.function.arguments with
    | none => rw [hp] at h; cases h
    | some args =>
      rw [hp] at h
      cases hm : mapNative parse rest with
      | error e => rw [hm] at h; simp [Except.map] at h
      | ok l' =>
        rw [hm] at h
        simp only [Except.map] at h
        injection h with h
        subst h
        exact List.Forall₂.cons ⟨rfl, rfl, hp⟩ (mapNative_spec parse rest l' hm)

theorem toolLoop_step (env : LoopEnv) (fuel : Nat) (req : InferenceRequest)
    (acc : List ToolExecutionData) (c : ToolCall) (cs : List ToolCall)
    (h : callsOf env req = Except.ok (c :: cs)) :
    toolLoop env (fuel + 1) req acc =
      toolLoop env fuel (stepRequest env req) (acc ++ (executeCalls env (c :: cs)).1) := by
  simp only [toolLoop]
  rw [h]

theorem toolLoop_final (env : LoopEnv) (fuel : Nat) (req : InferenceRequest)
    (acc : List ToolExecutionData) (h : callsOf env req = Except.ok []) :
    toolLoop env (fuel + 1) req acc = Except.ok (some (env.backend req), acc) := by
  simp only [toolLoop]
  rw [h]

theorem toolLoop_nonempty_exhausts (env : LoopEnv)
    (hsome : ∀ req, ∃ c cs, callsOf env req = Except.ok (c :: cs)) :
    ∀ (n : Nat) (req : InferenceRequest) (acc : List ToolExecutionData),
      ∃ recs, toolLoop env n req acc = Except.ok (none, acc ++ recs)
  | 0, req, acc => ⟨[], by simp [toolLoop]⟩
  | n + 1, req, acc => by
    obtain ⟨c, cs, hc⟩ := hsome req
    obtain ⟨recs, hrec⟩ := toolLoop_nonempty_exhausts env hsome n (stepRequest env req)
      (acc ++ (executeCalls env (c :: cs)).1)
    exact ⟨(executeCalls env (c :: cs)).1 ++ recs, by
      rw [toolLoop_step env n req acc c cs hc, hrec, List.append_assoc]⟩

theorem toolLoop_exhausts (env : LoopEnv)
    (hone : ∀ req, ∃ c, callsOf env req = Except.ok [c]) :
    ∀ (n : Nat) (req : InferenceRequest) (acc : List ToolExecutionData),
      toolLoop env n req acc = Except.ok (none, acc ++ flatRecs env n req) ∧
      (flatRecs env n req).length = n
  | 0, req, acc => by simp [toolLoop, flatRecs]
  | n + 1, req, acc => by
    obtain ⟨c, hc⟩ := hone req
    have hrecs : recsOf env req = (executeCalls env [c]).1 := by
      simp [recsOf, hc, Except.toOption]
    have hlen1 : (executeCalls env [c]).1.length = 1 := executeCalls_fst_length env [c]
    have ih := toolLoop_exhausts env hone n (stepRequest env req)
      (acc ++ (executeCalls env [c]).1)
    constructor
    · rw [toolLoop_step env n req acc c [] hc, ih.1]
      simp [flatRecs, hrecs, List.append_assoc]
    · simp only [flatRecs, List.length_append, hrecs, hlen1, ih.2]
      omega

/-! ## Claim C2 -/

/-- C2: if every model response requests at least one tool call, the loop
raises the distinct budget-exceeded error to the caller instead of
returning a partial answer; in the one-call-per-response scenario, the
run consists of exactly `MAX_TOOL_ITERATIONS` inference-and-execution
iterations whose accumulated trace — one iteration's records after
another, in request order — has exactly 5 records when the budget error is
raised. -/
theorem budget_exhausted_raises (env : LoopEnv) (request : InferenceRequest)
    (hsome : ∀ req, ∃ c cs, callsOf env req = Except.ok (c :: cs)) :
    runInferenceWithTools env request = Except.error "Maximum tool calling iterations reached" ∧
    ((∀ req, ∃ c, callsOf env req = Except.ok [c]) →
      toolLoop env MAX_TOOL_ITERATIONS request [] =
        Except.ok (none, flatRecs env MAX_TOOL_ITERATIONS request) ∧
      (flatRecs env MAX_TOOL_ITERATIONS request).length = MAX_TOOL_ITERATIONS) := by
  constructor
  · obtain ⟨recs, hrec⟩ :=
      toolLoop_nonempty_exhausts env hsome MAX_TOOL_ITERATIONS request []
    simp [runInferenceWithTools, hrec]
  · intro hone
    have h := toolLoop_exhausts env hone MAX_TOOL_ITERATIONS request []
    exact ⟨by simpa using h.1, h.2⟩

/-- C2 witness: a backend that always answers with one native tool call. -/
theorem budget_exhausted_raises_witness :
    runInferenceWithTools env5 reqEmpty =
      Except.error "Maximum tool calling iterations reached" ∧
    ((∀ req, ∃ c, callsOf env5 req = Except.ok [c]) →
      toolLoop env5 MAX_TOOL_ITERATIONS reqEmpty [] =
        Except.ok (none, flatRecs env5 MAX_TOOL_ITERATIONS reqEmpty) ∧
      (flatRecs env5 MAX_TOOL_ITERATIONS reqEmpty).length = MAX_TOOL_ITERATIONS) :=
  budget_exhausted_raises env5 reqEmpty (fun _ => ⟨toolCallC1, [], rfl⟩)

/-! ## Claim C5 -/

/-- C5: a response with a non-empty native tool-call list is handled by the
native mapping and never consults the text fallback — the chosen calls do
not depend on the text content, even content containing wrapper markers —
and each native call's JSON-encoded argument string is decoded into a
mapping in the resulting `ToolCall` records. -/
theorem native_calls_preferred (parse : String → Option JsonValue) (now : Nat)
    (response : InferenceResponse) (tc : NativeToolCall) (rest : List NativeToolCall)
    (hnat : response.message.toolCalls = some (tc :: rest)) :
    chooseToolCalls parse now response = mapNative parse (tc :: rest) ∧
    (∀ content : String,
      chooseToolCalls parse now
        { response with message := { response.message with content := content } } =
      chooseToolCalls parse now response) ∧
    (∀ records, mapNative parse (tc :: rest) = Except.ok records →
      List.Forall₂ (fun (ntc : NativeToolCall) (r : ToolCall) =>
        r.id = ntc.id ∧ r.name = ntc.function.name ∧
        parse ntc.function.arguments = some r.arguments) (tc :: rest) records) := by
  have h1 : chooseToolCalls parse now response = mapNative parse (tc :: rest) := by
    simp [chooseToolCalls, hnat]
  refine ⟨h1, ?_, fun records h => mapNative_spec parse (tc :: rest) records h⟩
  intro content
  have h2 : chooseToolCalls parse now
      { response with message := { response.message with content := content } } =
      mapNative parse (tc :: rest) := by
    simp [chooseToolCalls, hnat]
  rw [h1, h2]

/-- C5 witness: a response carrying both a native call and wrapper markers
in its text. -/
theorem native_calls_preferred_witness :
    msgBoth.toolCalls = some [nativeCallN1] ∧
    chooseToolCalls parseEmptyObj 0 respN = mapNative parseEmptyObj [nativeCallN1] :=
  ⟨rfl, (native_calls_preferred parseEmptyObj 0 respN nativeCallN1 [] rfl).1⟩

/-! ## Claim C6 -/

/-- C6: every executed tool call — whether its execution returns (possibly
with `isError = true`) or throws — yields a tool-result message with
`role = user` and content `formatToolResult name resultText isError` (the
thrown case carrying `"Error: " ++ message` with the error flag), and the
loop then proceeds to the next iteration with the extended state rather
than aborting. -/
theorem failing_tool_still_produces_message (env : LoopEnv) (fuel : Nat)
    (req : InferenceRequest) (acc : List ToolExecutionData) (c : ToolCall)
    (cs : List ToolCall) (h : callsOf env req = Except.ok (c :: cs)) :
    toolLoop env (fuel + 1) req acc =
      toolLoop env fuel (stepRequest env req) (acc ++ (executeCalls env (c :: cs)).1) ∧
    List.Forall₂ (fun tc (m : ChatMessage) =>
      m.role = MessageRole.user ∧
      m.content = (match (env.exec tc).outcome with
        | Except.ok r => formatToolResult tc.name r.content r.isError
        | Except.error e => formatToolResult tc.name ("Error: " ++ e) true))
      (c :: cs) (executeCalls env (c :: cs)).2 :=
  ⟨toolLoop_step env fuel req acc c cs h, executeCalls_messages env (c :: cs)⟩

/-- C6 witness: an executor reporting `isError = true`. -/
theorem failing_tool_still_produces_message_witness :
    callsOf envErr reqEmpty = Except.ok [toolCallDel] ∧
    toolLoop envErr 1 reqEmpty [] =
      toolLoop envErr 0 (stepRequest envErr reqEmpty)
        ([] ++ (executeCalls envErr [toolCallDel]).1) :=
  ⟨rfl, (failing_tool_still_produces_message envErr 0 reqEmpty [] toolCallDel [] rfl).1⟩

/-! ## Claim C7 -/

/-- C7: the conversation is extended append-only — after an iteration that
executed tool calls, the message sequence is the previous one unchanged,
followed by one assistant message (the response message with content
stripped, or the placeholder "(Using tools...)" when stripping leaves the
empty string, role preserved) and one tool-result user message per
executed call, in extraction order. -/
theorem conversation_append_only (env : LoopEnv) (fuel : Nat) (req : InferenceRequest)
    (acc : List ToolExecutionData) (c : ToolCall) (cs : List ToolCall)
    (h : callsOf env req = Except.ok (c :: cs)) :
    (stepRequest env req).messages =
      req.messages ++ assistantMessageOf env req :: (executeCalls env (c :: cs)).2 ∧
    (assistantMessageOf env req).role = (env.backend req).message.role ∧
    (assistantMessageOf env req).content =
      (if removeToolCallTags (env.backend req).message.content = "" then "(Using tools...)"
       else removeToolCallTags (env.backend req).message.content) ∧
    (∀ m ∈ (executeCalls env (c :: cs)).2, m.role = MessageRole.user) ∧
    (executeCalls env (c :: cs)).2.length = (c :: cs).length ∧
    toolLoop env (fuel + 1) req acc =
      toolLoop env fuel (stepRequest env req) (acc ++ (executeCalls env (c :: cs)).1) := by
  refine ⟨?_, rfl, rfl, executeCalls_roles env (c :: cs),
    executeCalls_snd_length env (c :: cs), toolLoop_step env fuel req acc c cs h⟩
  simp [stepRequest, h, Except.toOption]

/-- C7 witness. -/
theorem conversation_append_only_witness :
    callsOf envErr reqEmpty = Except.ok [toolCallDel] ∧
    (stepRequest envErr reqEmpty).messages =
      reqEmpty.messages ++ assistantMessageOf envErr reqEmpty ::
        (executeCalls envErr [toolCallDel]).2 :=
  ⟨rfl, (conversation_append_only envErr 0 reqEmpty [] toolCallDel [] rfl).1⟩

/-! ## Claim C9 -/

/-- C9: when the response has no (non-empty) native tool-call list,
detection fires on the text but extraction yields no record, the loop
finishes in that iteration and the invocation returns the backend's
response itself — content unmodified, so the wrapper markers that
triggered detection leak into the final message. -/
theorem detection_without_extraction_returns_unmodified (env : LoopEnv)
    (req : InferenceRequest)
    (hnative : (env.backend req).message.toolCalls = none ∨
      (env.backend req).message.toolCalls = some [])
    (hdetect : detectToolCall (env.backend req).message.content = true)
    (hextract : extractToolCalls env.parse env.now (env.backend req).message.content = []) :
    runInferenceWithTools env req = Except.ok (env.backend req) := by
  have hcalls : callsOf env req = Except.ok [] := by
    rcases hnative with h | h <;>
      simp [callsOf, chooseToolCalls, h, hdetect, hextract]
  have hloop : toolLoop env MAX_TOOL_ITERATIONS req [] =
      Except.ok (some (env.backend req), []) := toolLoop_final env 4 req [] hcalls
  simp [runInferenceWithTools, hloop]

/-- C9 witness: wrapper markers around text that fails to parse. -/
theorem detection_without_extraction_returns_unmodified_witness :
    detectToolCall (envFP.backend reqEmpty).message.content = true ∧
    runInferenceWithTools envFP reqEmpty = Except.ok (envFP.backend reqEmpty) :=
  ⟨by decide,
   detection_without_extraction_returns_unmodified envFP reqEmpty (Or.inl rfl) (by decide) rfl⟩

/-! ## Claim C10 -/

/-- C10: for an invocation whose first response contains no tool calls, the
returned response is the backend's response with every field unchanged; in
particular when the backend left `toolExecutions` unset it stays unset
(absent, not an empty sequence), the accumulator being attached only when
at least one execution occurred. -/
theorem no_tool_calls_leaves_response_unchanged (env : LoopEnv) (req : InferenceRequest)
    (hnative : (env.backend req).message.toolCalls = none)
    (hdetect : detectToolCall (env.backend req).message.content = false) :
    runInferenceWithTools env req = Except.ok (env.backend req) ∧
    ((env.backend req).message.toolExecutions = none →
      ∃ resp, runInferenceWithTools env req = Except.ok resp ∧
        resp.message.toolExecutions = none) := by
  have hcalls : callsOf env req = Except.ok [] := by
    simp [callsOf, chooseToolCalls, hnative, hdetect]
  have hloop : toolLoop env MAX_TOOL_ITERATIONS req [] =
      Except.ok (some (env.backend req), []) := toolLoop_final env 4 req [] hcalls
  have hrun : runInferenceWithTools env req = Except.ok (env.backend req) := by
    simp [runInferenceWithTools, hloop]
  exact ⟨hrun, fun hne => ⟨env.backend req, hrun, hne⟩⟩

/-- C10 witness: a plain prose response. -/
theorem no_tool_calls_leaves_response_unchanged_witness :
    runInferenceWithTools envPlain reqEmpty = Except.ok (envPlain.backend reqEmpty) ∧
    ((envPlain.backend reqEmpty).message.toolExecutions = none →
      ∃ resp, runInferenceWithTools envPlain reqEmpty = Except.ok resp ∧
        resp.message.toolExecutions = none) :=
  no_tool_calls_leaves_response_unchanged envPlain reqEmpty rfl (by decide)
